import Mathlib

/-!
Shallow embedding of `src/PrintEncrypted.cpp` (repository rbharath/hepy).

The program is a single straight-line `main` that
1. derives the level budget `L` from `R, p, r` when `L` is not supplied,
2. builds an FHE context, generates a Hamming-weight-64 secret key and
   installs rotation/shift key-switching matrices,
3. draws four random plaintext vectors `p0..p3`, encrypts them,
   draws a shift amount `shamt` and a rotation amount `rotamt`,
   draws two constant vectors `const1, const2`,
4. runs a fixed ten-step arithmetic program once on the ciphertexts and
   once on the plaintext arrays,
5. cleans up the four result ciphertexts, decrypts them, and prints a
   success line when all four decryptions agree slot-wise with the
   plaintext results, an ERROR line otherwise.

The embedding records the straight-line control flow of `main` as an
event trace, the two arithmetic paths as deep-embedded operation lists
(each translated from its own block of source lines), and the arithmetic
that derives `L`, `shamt` and `rotamt` as executable functions on ℤ/ℕ.
The external FHE engine (key generation internals, `FindM`, slot counts,
security estimates, the raw random stream) is kept abstract as a
structure of deterministic functions, exactly as the spec scopes it out.
-/

namespace PrintEncrypted

/-- Registers of the dual pipeline: positions 0..3 hold `c0..c3` on the
ciphertext side and `p0..p3` on the plaintext side; `rtmp` is the
temporary `tmp` / `tmp_p`. -/
inductive Reg
  | r0
  | r1
  | r2
  | r3
  | rtmp
deriving DecidableEq

/-- The two random constant vectors `const1` and `const2`. -/
inductive ConstId
  | one
  | two
deriving DecidableEq

/-- One arithmetic instruction of the fixed operation program.  The
destination register is mutated in place, mirroring the C++ calls. -/
inductive Op
  | mulReg (d s : Reg)
  | addConst (d : Reg) (c : ConstId)
  | mulConst (d : Reg) (c : ConstId)
  | copy (d s : Reg)
  | shiftBy (d : Reg) (amt : ℤ)
  | addReg (d s : Reg)
  | rotateBy (d : Reg) (amt : ℤ)
  | negReg (d : Reg)
  | subReg (d s : Reg)
deriving DecidableEq

/-- The ciphertext-side operation sequence, translated line by line from
source lines 194-203:
`c1.multiplyBy(c0); c0.addConstant(const1_poly); c2.multByConstant(const2_poly);
Ctxt tmp(c1); ea.shift(tmp, shamt); c2 += tmp; ea.rotate(c2, rotamt);
c1.negate(); c3.multiplyBy(c2); c0 -= c3;`. -/
def ctxtProgram (sh ro : ℤ) : List Op :=
  [ .mulReg .r1 .r0
  , .addConst .r0 .one
  , .mulConst .r2 .two
  , .copy .rtmp .r1
  , .shiftBy .rtmp sh
  , .addReg .r2 .rtmp
  , .rotateBy .r2 ro
  , .negReg .r1
  , .mulReg .r3 .r2
  , .subReg .r0 .r3 ]

/-- The plaintext-side operation sequence, translated line by line from
source lines 206-215:
`mul(ea, p1, p0); add(ea, p0, const1); mul(ea, p2, const2);
NewPlaintextArray tmp_p(p1); shift(ea, tmp_p, shamt); add(ea, p2, tmp_p);
rotate(ea, p2, rotamt); negate(ea, p1); mul(ea, p3, p2); sub(ea, p0, p3);`. -/
def ptxtProgram (sh ro : ℤ) : List Op :=
  [ .mulReg .r1 .r0
  , .addConst .r0 .one
  , .mulConst .r2 .two
  , .copy .rtmp .r1
  , .shiftBy .rtmp sh
  , .addReg .r2 .rtmp
  , .rotateBy .r2 ro
  , .negReg .r1
  , .mulReg .r3 .r2
  , .subReg .r0 .r3 ]

/-- The six randomly drawn plaintext vectors, in the order their `random`
calls appear in `main`. -/
inductive VecId
  | p0v
  | p1v
  | p2v
  | p3v
  | const1v
  | const2v
deriving DecidableEq

/-- Which of the two paths an event belongs to. -/
inductive Side
  | ctxtSide
  | ptxtSide
deriving DecidableEq

/-- The success line printed at source line 237. -/
def successMsg : String := "Homomorphic Computation performed correctly.\n"

/-- The failure line printed at source line 238. -/
def errMsg : String := "ERROR\n"

/-- Slot-wise equality of two plaintext vectors, the model of
`equals(ea, ., .)`. -/
def slotEq (a b : List ℤ) : Bool := a == b

/-- The condition of the `if` at source lines 235-236:
`equals(ea,pp0,p0) && equals(ea,pp1,p1) && equals(ea,pp2,p2) && equals(ea,pp3,p3)`. -/
def allEqB (a0 b0 a1 b1 a2 b2 a3 b3 : List ℤ) : Bool :=
  slotEq a0 b0 && slotEq a1 b1 && slotEq a2 b2 && slotEq a3 b3

/-- The single verdict line printed by the `if`/`else` at lines 235-238. -/
def verdictString (ok : Bool) : String := if ok then successMsg else errMsg

/-- Events of the straight-line run of `main`, in source order.  Events
carry the data that `main` passes at that point; the opaque engine calls
appear as argumentless markers. -/
inductive Event
  | setSeed (s : ℤ)
  | printL (L : ℤ)
  | findM
  | buildChain
  | printAlgebra
  | printSecurity
  | genSec (w : ℤ)
  | addRotKeys
  | printNslots (n : ℕ)
  | drawVec (v : VecId)
  | encryptReg (r : Reg)
  | drawShamt
  | printShamt (v : ℤ)
  | drawRotamt
  | printRotamt (v : ℤ)
  | encodeConst (c : ConstId)
  | ctxtOp (o : Op)
  | ptxtOp (o : Op)
  | cleanReg (s : Side) (r : Reg)
  | decryptReg (r : Reg)
  | printMsg (s : String)
deriving DecidableEq

/-- The full event trace of one run of `main`, in the order of source
lines 82-238.  `ok` is the value of the verification condition at line
235.  Every run executes the same trace shape; only the final printed
line depends on `ok`. -/
def mainEvents (seed L : ℤ) (ns : ℕ) (sh ro : ℤ) (ok : Bool) : List Event :=
  [ .setSeed seed
  , .printL L
  , .findM
  , .buildChain
  , .printAlgebra
  , .printSecurity
  , .genSec 64
  , .addRotKeys
  , .printNslots ns
  , .drawVec .p0v
  , .drawVec .p1v
  , .drawVec .p2v
  , .drawVec .p3v
  , .encryptReg .r0
  , .encryptReg .r1
  , .encryptReg .r2
  , .encryptReg .r3
  , .drawShamt
  , .printShamt sh
  , .drawRotamt
  , .printRotamt ro
  , .drawVec .const1v
  , .drawVec .const2v
  , .encodeConst .one
  , .encodeConst .two ]
  ++ (ctxtProgram sh ro).map Event.ctxtOp
  ++ (ptxtProgram sh ro).map Event.ptxtOp
  ++ [ .cleanReg .ctxtSide .r0
  , .cleanReg .ctxtSide .r1
  , .cleanReg .ctxtSide .r2
  , .cleanReg .ctxtSide .r3
  , .decryptReg .r0
  , .decryptReg .r1
  , .decryptReg .r2
  , .decryptReg .r3
  , .printMsg (verdictString ok) ]

/-- Predicate for the verdict line event. -/
def isVerdict : Event → Bool
  | .printMsg _ => true
  | _ => false

/-- Predicate for a homomorphic shift or rotate applied to a ciphertext. -/
def isShiftRotate : Event → Bool
  | .ctxtOp (.shiftBy _ _) => true
  | .ctxtOp (.rotateBy _ _) => true
  | _ => false

/-- Predicate for a normalization (`cleanUp`) step on the plaintext path. -/
def isPtxtClean : Event → Bool
  | .cleanReg .ptxtSide _ => true
  | _ => false

/-- Labels of the named random draws, used to extract the RNG
consumption order from a trace. -/
inductive DrawLbl
  | vecDrawL (v : VecId)
  | shamtDrawL
  | rotamtDrawL
deriving DecidableEq

/-- Project an event to its draw label, when it consumes one of the
named random draws. -/
def drawLabel : Event → Option DrawLbl
  | .drawVec v => some (.vecDrawL v)
  | .drawShamt => some .shamtDrawL
  | .drawRotamt => some .rotamtDrawL
  | _ => none

/-- Labels of the cleanup and decryption events, used to check that every
result ciphertext is normalized before any decryption happens. -/
inductive CleanDec
  | cleanL (s : Side) (r : Reg)
  | decL (r : Reg)
deriving DecidableEq

/-- Project an event to its cleanup/decryption label. -/
def cdLabel : Event → Option CleanDec
  | .cleanReg s r => some (.cleanL s r)
  | .decryptReg r => some (.decL r)
  | _ => none

/-- Derivation of the level budget, source lines 89-95:
`if (L==0) { L = 3*R+3; if (p>2 || r>1) { L += R*addPerRound; } }`.
`apr` is the value of the floating-point `addPerRound` expression at
line 92, kept opaque here. -/
def deriveL (Lin R p r apr : ℤ) : ℤ :=
  if Lin = 0 then
    if p > 2 ∨ r > 1 then 3 * R + 3 + R * apr else 3 * R + 3
  else Lin

/-- `RandomBnd(n)` of NTL applied to one raw draw of the seeded stream:
uniform on `[0, n)` when the raw draw is uniform. -/
def randomBnd (draw n : ℕ) : ℕ := draw % n

/-- The shift amount as a function of its `RandomBnd` result `u`, source
line 177: `shamt = RandomBnd(2*(nslots/2) + 1) - (nslots/2)`, where
`nslots/2` is truncating C++ division on nonnegative longs. -/
def shamtFromDraw (ns u : ℕ) : ℤ := (u : ℤ) - ((ns / 2 : ℕ) : ℤ)

/-- The rotation amount as a function of its `RandomBnd` result `v`,
source line 180: `rotamt = RandomBnd(2*nslots - 1) - (nslots - 1)`. -/
def rotamtFromDraw (ns v : ℕ) : ℤ := (v : ℤ) - ((ns : ℤ) - 1)

/-- One random plaintext vector: `nslots` successive raw draws of the
stream, each reduced to the slot domain of size `card`. -/
def vecDraw (str : ℕ → ℕ) (start ns card : ℕ) : List ℕ :=
  (List.range ns).map fun j => randomBnd (str (start + j)) card

/-- The configuration surface of `main` after argument parsing: seed and
the nine numeric knobs, with the source's names. -/
structure Config where
  seed : ℤ
  R : ℤ
  p : ℤ
  r : ℤ
  d : ℤ
  c : ℤ
  k : ℤ
  L : ℤ
  s : ℤ
  chosen_m : ℤ
deriving DecidableEq

/-- The external FHE engine, scoped out by the spec: a package of
deterministic functions.  `rngStream seed` is the raw stream of the
process-wide generator after `SetSeed(seed)`; `keySetupDraws` and
`encDraws` are the amounts of stream it consumes during key setup and
per encryption; `findM`, `nslotsOf`, `securityOf` model `FindM`, the
slot count of the algebra, and `context.securityLevel()`;
`addPerRoundOf p r` is the floating-point heuristic at line 92. -/
structure Engine where
  rngStream : ℤ → ℕ → ℕ
  keySetupDraws : ℕ
  encDraws : ℕ
  findM : ℤ → ℤ → ℤ → ℤ → ℤ → ℤ → ℤ → ℤ
  nslotsOf : ℤ → ℕ
  securityOf : ℤ → ℤ → ℤ
  addPerRoundOf : ℤ → ℤ → ℤ

/-- Everything a run derives and draws: the derived parameters reported
by `main` and the eight named random draws. -/
structure RunOut where
  Lout : ℤ
  mOut : ℤ
  nslotsOut : ℕ
  secOut : ℤ
  p0 : List ℕ
  p1 : List ℕ
  p2 : List ℕ
  p3 : List ℕ
  shamt : ℤ
  rotamt : ℤ
  const1 : List ℕ
  const2 : List ℕ
deriving DecidableEq

/-- The derived parameters and random draws of one run of `main`, as a
function of the engine and the parsed configuration, with the RNG
modelled as the seeded stream consumed left to right in source order
(key setup, then `p0..p3`, then the four encryptions, then `shamt`,
`rotamt`, `const1`, `const2`). -/
def runOutputs (E : Engine) (cfg : Config) : RunOut :=
  let L := deriveL cfg.L cfg.R cfg.p cfg.r (E.addPerRoundOf cfg.p cfg.r)
  let m := E.findM cfg.k L cfg.c cfg.p cfg.d cfg.s cfg.chosen_m
  let ns := E.nslotsOf m
  let sec := E.securityOf m L
  let str := E.rngStream cfg.seed
  let card := cfg.p.toNat ^ cfg.r.toNat
  let i0 := E.keySetupDraws
  let q0 := vecDraw str i0 ns card
  let q1 := vecDraw str (i0 + ns) ns card
  let q2 := vecDraw str (i0 + 2 * ns) ns card
  let q3 := vecDraw str (i0 + 3 * ns) ns card
  let i4 := i0 + 4 * ns + 4 * E.encDraws
  let sh := shamtFromDraw ns (randomBnd (str i4) (2 * (ns / 2) + 1))
  let ro := rotamtFromDraw ns (randomBnd (str (i4 + 1)) (2 * ns - 1))
  let k1 := vecDraw str (i4 + 2) ns card
  let k2 := vecDraw str (i4 + 2 + ns) ns card
  ⟨L, m, ns, sec, q0, q1, q2, q3, sh, ro, k1, k2⟩

theorem allEqB_true_iff (a0 b0 a1 b1 a2 b2 a3 b3 : List ℤ) :
    allEqB a0 b0 a1 b1 a2 b2 a3 b3 = true ↔ (a0 = b0 ∧ a1 = b1 ∧ a2 = b2 ∧ a3 = b3) := by
  simp [allEqB, slotEq, Bool.and_eq_true, and_assoc]

theorem verdict_success_iff (ok : Bool) : verdictString ok = successMsg ↔ ok = true := by
  cases ok
  · exact ⟨fun h => absurd h (by decide), fun h => by cases h⟩
  · simp [verdictString]

/-- C1: the success line is printed iff all four decrypted vectors equal
their plaintext-path counterparts slot-wise, otherwise the ERROR line is
printed; the two lines are distinct, exactly one verdict line occurs in
the trace, it is the last event, and a mismatch does not abort the run:
both outcomes execute traces of the same length. -/
theorem C1_verdict_line (a0 b0 a1 b1 a2 b2 a3 b3 : List ℤ) (seed L : ℤ) (ns : ℕ) (sh ro : ℤ) :
    (verdictString (allEqB a0 b0 a1 b1 a2 b2 a3 b3) = successMsg ↔
      (a0 = b0 ∧ a1 = b1 ∧ a2 = b2 ∧ a3 = b3))
    ∧ (verdictString (allEqB a0 b0 a1 b1 a2 b2 a3 b3) = successMsg ∨
      verdictString (allEqB a0 b0 a1 b1 a2 b2 a3 b3) = errMsg)
    ∧ successMsg ≠ errMsg
    ∧ (∀ ok : Bool, (mainEvents seed L ns sh ro ok).countP isVerdict = 1
        ∧ (mainEvents seed L ns sh ro ok).getLast? = some (Event.printMsg (verdictString ok)))
    ∧ (mainEvents seed L ns sh ro true).length = (mainEvents seed L ns sh ro false).length := by
  refine ⟨?_, ?_, by decide, fun ok => ⟨rfl, rfl⟩, rfl⟩
  · rw [verdict_success_iff, allEqB_true_iff]
  · cases h : allEqB a0 b0 a1 b1 a2 b2 a3 b3
    · exact Or.inr rfl
    · exact Or.inl rfl

/-- C2: the ciphertext path and the plaintext path run the identical
operation sequence in the identical order with the same operands and
amounts; each of the four result ciphertexts is cleaned up before any
decryption; and the plaintext path contains no normalization step. -/
theorem C2_dual_program (seed L : ℤ) (ns : ℕ) (sh ro : ℤ) (ok : Bool) :
    ctxtProgram sh ro = ptxtProgram sh ro
    ∧ (mainEvents seed L ns sh ro ok).filterMap cdLabel =
      [ .cleanL .ctxtSide .r0, .cleanL .ctxtSide .r1, .cleanL .ctxtSide .r2, .cleanL .ctxtSide .r3
      , .decL .r0, .decL .r1, .decL .r2, .decL .r3 ]
    ∧ (mainEvents seed L ns sh ro ok).countP isPtxtClean = 0 :=
  ⟨rfl, rfl, rfl⟩

/-- C7: the trace splits at the `addSome1DMatrices` event, and no event
before the split is a homomorphic shift or rotate, so rotation-key
installation precedes every shift/rotate on a ciphertext. -/
theorem C7_rotkeys_first (seed L : ℤ) (ns : ℕ) (sh ro : ℤ) (ok : Bool) :
    ∃ l₁ l₂ : List Event, mainEvents seed L ns sh ro ok = l₁ ++ Event.addRotKeys :: l₂
      ∧ ∀ e ∈ l₁, isShiftRotate e = false := by
  refine ⟨[ .setSeed seed, .printL L, .findM, .buildChain, .printAlgebra, .printSecurity,
    .genSec 64], _, rfl, ?_⟩
  intro e he
  fin_cases he <;> rfl

/-- C8: every run generates the secret key with Hamming weight 64, and
64 is the only weight a key-generation event of the trace carries,
whatever the configuration-dependent trace parameters are. -/
theorem C8_weight_64 (seed L : ℤ) (ns : ℕ) (sh ro : ℤ) (ok : Bool) :
    Event.genSec 64 ∈ mainEvents seed L ns sh ro ok
    ∧ ∀ w : ℤ, Event.genSec w ∈ mainEvents seed L ns sh ro ok → w = 64 := by
  constructor
  · simp [mainEvents]
  · intro w hw
    simp [mainEvents, ctxtProgram, ptxtProgram] at hw
    exact hw

/-- C9: restricted to the named random draws, the trace consumes the RNG
in the fixed order `p0, p1, p2, p3, shamt, rotamt, const1, const2`; in
particular `shamt` and `rotamt` are drawn before `const1` and `const2`. -/
theorem C9_draw_order (seed L : ℤ) (ns : ℕ) (sh ro : ℤ) (ok : Bool) :
    (mainEvents seed L ns sh ro ok).filterMap drawLabel =
      [ .vecDrawL .p0v, .vecDrawL .p1v, .vecDrawL .p2v, .vecDrawL .p3v
      , .shamtDrawL, .rotamtDrawL, .vecDrawL .const1v, .vecDrawL .const2v ] := rfl

/-- C3: when `L` is not supplied and `p = 2`, `r = 1`, the derived level
budget is `3R + 3` for every round count `R ≥ 1`, independent of the
per-round heuristic value, and in particular equals 6 for `R = 1`. -/
theorem C3_default_L (R apr : ℤ) (hR : 1 ≤ R) :
    deriveL 0 R 2 1 apr = 3 * R + 3 ∧ deriveL 0 1 2 1 apr = 6 := by
  constructor <;> norm_num [deriveL]

theorem C3_default_L_w : deriveL 0 1 2 1 5 = 3 * 1 + 3 ∧ deriveL 0 1 2 1 5 = 6 :=
  C3_default_L 1 5 (by decide)

/-- C4: for every `nslots ≥ 1`, every admissible `RandomBnd` result puts
`shamt` in `[-(nslots/2), nslots/2]` and `rotamt` in
`[-(nslots-1), nslots-1]`, and each value of either closed interval is
hit by exactly one admissible `RandomBnd` result, so a uniform
`RandomBnd` yields a uniform amount on its interval. -/
theorem C4_amount_ranges (ns : ℕ) (hns : 1 ≤ ns) :
    (∀ u : ℕ, u < 2 * (ns / 2) + 1 →
      -(((ns / 2 : ℕ) : ℤ)) ≤ shamtFromDraw ns u ∧ shamtFromDraw ns u ≤ ((ns / 2 : ℕ) : ℤ))
    ∧ (∀ v : ℕ, v < 2 * ns - 1 →
      -((ns : ℤ) - 1) ≤ rotamtFromDraw ns v ∧ rotamtFromDraw ns v ≤ (ns : ℤ) - 1)
    ∧ (∀ t : ℤ, -(((ns / 2 : ℕ) : ℤ)) ≤ t → t ≤ ((ns / 2 : ℕ) : ℤ) →
      ∃! u : ℕ, u < 2 * (ns / 2) + 1 ∧ shamtFromDraw ns u = t)
    ∧ (∀ t : ℤ, -((ns : ℤ) - 1) ≤ t → t ≤ (ns : ℤ) - 1 →
      ∃! v : ℕ, v < 2 * ns - 1 ∧ rotamtFromDraw ns v = t) := by
  refine ⟨fun u hu => ?_, fun v hv => ?_, fun t h1 h2 => ?_, fun t h1 h2 => ?_⟩
  · unfold shamtFromDraw; omega
  · unfold rotamtFromDraw; omega
  · refine ⟨(t + ((ns / 2 : ℕ) : ℤ)).toNat, ⟨?_, ?_⟩, ?_⟩
    · omega
    · unfold shamtFromDraw; omega
    · rintro u' ⟨hb, he⟩
      unfold shamtFromDraw at he
      omega
  · refine ⟨(t + ((ns : ℤ) - 1)).toNat, ⟨?_, ?_⟩, ?_⟩
    · omega
    · unfold rotamtFromDraw; omega
    · rintro v' ⟨hb, he⟩
      unfold rotamtFromDraw at he
      omega

theorem C4_amount_ranges_w :
    (-(((5 / 2 : ℕ) : ℤ)) ≤ shamtFromDraw 5 0 ∧ shamtFromDraw 5 0 ≤ ((5 / 2 : ℕ) : ℤ))
    ∧ (-((5 : ℤ) - 1) ≤ rotamtFromDraw 5 0 ∧ rotamtFromDraw 5 0 ≤ (5 : ℤ) - 1) :=
  ⟨(C4_amount_ranges 5 (by decide)).1 0 (by decide),
   (C4_amount_ranges 5 (by decide)).2.1 0 (by decide)⟩

/-- C6: the derived parameters and all named random draws of a run are a
function of the engine and the configuration (seed included): two runs
with the same engine and equal configurations produce identical outputs. -/
theorem C6_deterministic (E : Engine) (c1 c2 : Config) (h : c1 = c2) :
    runOutputs E c1 = runOutputs E c2 := by rw [h]

def engine0 : Engine :=
  ⟨fun _ i => i, 3, 2, fun _ _ _ _ _ _ _ => 7, fun _ => 4, fun _ _ => 99, fun _ _ => 1⟩

def config0 : Config := ⟨0, 1, 2, 1, 1, 2, 80, 0, 0, 0⟩

theorem C6_deterministic_w : runOutputs engine0 config0 = runOutputs engine0 config0 :=
  C6_deterministic engine0 config0 config0 rfl

/-- C10: for `nslots = 1` both amounts are forced to 0 (the only
admissible `RandomBnd` result is 0), and for odd `nslots` the magnitude
of `shamt` is bounded by `(nslots-1)/2` and this bound is attained. -/
theorem C10_degenerate_and_odd :
    (∀ u : ℕ, u < 2 * (1 / 2) + 1 → shamtFromDraw 1 u = 0)
    ∧ (∀ v : ℕ, v < 2 * 1 - 1 → rotamtFromDraw 1 v = 0)
    ∧ (∀ ns u : ℕ, ns % 2 = 1 → u < 2 * (ns / 2) + 1 →
      -((((ns - 1) / 2 : ℕ) : ℤ)) ≤ shamtFromDraw ns u
        ∧ shamtFromDraw ns u ≤ (((ns - 1) / 2 : ℕ) : ℤ))
    ∧ (∀ ns : ℕ, ns % 2 = 1 →
      ∃ u : ℕ, u < 2 * (ns / 2) + 1 ∧ shamtFromDraw ns u = (((ns - 1) / 2 : ℕ) : ℤ)) := by
  refine ⟨fun u hu => ?_, fun v hv => ?_, fun ns u ho hu => ?_, fun ns ho => ?_⟩
  · unfold shamtFromDraw; omega
  · unfold rotamtFromDraw; omega
  · unfold shamtFromDraw; omega
  · exact ⟨2 * (ns / 2), by omega, by unfold shamtFromDraw; omega⟩

theorem C10_degenerate_and_odd_w : shamtFromDraw 1 0 = 0 ∧ rotamtFromDraw 1 0 = 0 :=
  ⟨C10_degenerate_and_odd.1 0 (by decide), C10_degenerate_and_odd.2.1 0 (by decide)⟩

theorem C7_rotkeys_first_w :
    ∃ l₁ l₂ : List Event, mainEvents 0 6 4 1 1 true = l₁ ++ Event.addRotKeys :: l₂
      ∧ ∀ e ∈ l₁, isShiftRotate e = false :=
  C7_rotkeys_first 0 6 4 1 1 true

theorem C8_weight_64_w : Event.genSec 64 ∈ mainEvents 0 6 4 1 1 true ∧ (64 : ℤ) = 64 :=
  ⟨(C8_weight_64 0 6 4 1 1 true).1,
   (C8_weight_64 0 6 4 1 1 true).2 64 (C8_weight_64 0 6 4 1 1 true).1⟩

end PrintEncrypted
